import Mathlib

/-!
Verification of the Temporal Test262 runner against its specification.

The development shallowly embeds the runner's algorithms from the source:

* Expectation-list files are modelled as their character sequences
  (`List Char`).  `splitLinesL` embeds JavaScript's
  `split(/\r?\n/g)`; `joinLinesL` embeds joining with a single LF.
* `loadExpectedFailureFile` embeds the membership parse of an
  expected-failure file (runner lines 164-172); `updateExpectedFailureFile`
  embeds the reconciliation rewrite (runner lines 433-439).
* The test loop (runner lines 274-373) is embedded as `processTest` /
  `runLoop` over an explicit `RunState`, parameterised by the external
  collaborators that are not part of this repository: the compiled polyfill
  script, the harness helper scripts, the YAML parser (js-yaml `load`), and
  node's `vm` timeout behaviour.  A ghost `executed` trace records, for each
  test that actually ran, the environment its body was handed; it is pure
  observation and feeds no decision in the loop.
-/

/-! ## Expectation-list files: line splitting and joining -/

/-- Embeds `str.split(/\r?\n/g)` from runner lines 169 and 436: every LF is a
separator, and a CR immediately preceding an LF is consumed with it.  A
JavaScript split always yields at least one (possibly empty) segment. -/
def splitLinesL : List Char → List (List Char)
  | [] => [[]]
  | '\r' :: '\n' :: rest => [] :: splitLinesL rest
  | c :: rest =>
    if c = '\n' then
      [] :: splitLinesL rest
    else
      match splitLinesL rest with
      | [] => [[c]]
      | l :: ls => (c :: l) :: ls

/-- Splitting on LF only (no CR handling).  On carriage-return-free input this
agrees with `splitLinesL`; it is the workhorse for the round-trip lemmas. -/
def splitOnNl : List Char → List (List Char)
  | [] => [[]]
  | c :: rest =>
    if c = '\n' then
      [] :: splitOnNl rest
    else
      match splitOnNl rest with
      | [] => [[c]]
      | l :: ls => (c :: l) :: ls

/-- Embeds `output.join` with a LF separator (runner line 438): concatenate the
segments with a single LF between consecutive segments. -/
def joinLinesL : List (List Char) → List Char
  | [] => []
  | [l] => l
  | l :: ls => l ++ '\n' :: joinLinesL ls

/-- Embeds the membership parse of one expected-failure file (runner lines
164-172): split the content on `/\r?\n/`, keep the lines that are nonempty and
whose first character is not the comment marker.  The JavaScript filter is
`line && line[0] !== '#'`; each kept line is taken verbatim, with no
trimming. -/
def loadExpectedFailureFile (content : List Char) : List (List Char) :=
  (splitLinesL content).filter (fun line => !line.isEmpty && !(line.head? == some '#'))

/-- Embeds `updateExpectedFailureFile` (runner lines 433-439): re-read the
file's lines with the same `/\r?\n/` split, drop every line that is literally a
member of `expectedFailuresInFile` (exact, untrimmed comparison), and write the
remaining lines back joined by LF. -/
def updateExpectedFailureFile (content : List Char) (expectedFailuresInFile : List (List Char)) :
    List Char :=
  joinLinesL ((splitLinesL content).filter (fun l => !expectedFailuresInFile.contains l))

/-! ## The run model

Data types for the embedded test loop.  A sandbox global environment is a
finite map from binding names to values; the polyfill, each helper script and
each test body are functions transforming such an environment. -/

/-- A sandbox global environment: bindings created by the polyfill, the
helpers, or the test body.  `vm.createContext({})` starts from the empty
environment (host built-ins are elided). -/
abbrev Env := List (String × Nat)

/-- What a test body does when executed in an environment: it finishes
normally, raises an error, or would run past any finite budget. -/
inductive BodyResult where
  | completed
  | raised (e : String)
  | overran
deriving DecidableEq

/-- Result of `vm.Script.runInContext` with a timeout as observed by the
runner's try/catch: normal completion, or a thrown error (a timeout surfaces
as a thrown error, runner lines 341-364). -/
inductive ExecResult where
  | ok
  | threw (e : String)
deriving DecidableEq

/-- A parsed YAML front matter document, restricted to the two fields the
runner destructures (runner line 313).  A missing field stands for a document
that lacks it. -/
structure Frontmatter where
  flags : Option (List String)
  includes : Option (List String)
deriving DecidableEq

/-- One selected test: its identifier relative to the test directory
(`testRelPath`, runner line 304), its source text, and the behaviour of its
compiled body as a function of the sandbox environment. -/
structure TestCase where
  relPath : String
  code : String
  body : Env → Env × BodyResult

/-- The run options relevant to the loop: the timeout budget and the optional
failure ceiling (runner options `timeoutMsecs` and `maxFailures`). -/
structure RunConfig where
  timeoutMsecs : Nat
  maxFailures : Option Nat
deriving DecidableEq

/-- The loop's accumulated state (runner lines 274-281), plus the ghost
`executed` trace recording each executed test and the environment handed to
its body. -/
structure RunState where
  failures : List (String × String)
  unexpectedPasses : List (String × List String)
  passCount : Nat
  expectedFailCount : Nat
  unexpectedPassCount : Nat
  skippedCount : Nat
  executed : List (String × Env)
deriving DecidableEq

/-- The state before the first test: all counters zero, all lists empty. -/
def initState : RunState := ⟨[], [], 0, 0, 0, 0, []⟩

/-- Splits a character sequence around the first occurrence of `pat`,
returning the part before it and the part after it, or `none` when `pat` does
not occur. -/
def splitOnFirst (pat : List Char) : List Char → Option (List Char × List Char)
  | [] => if pat.isEmpty then some ([], []) else none
  | c :: rest =>
    if pat.isPrefixOf (c :: rest) then
      some ([], (c :: rest).drop pat.length)
    else
      (splitOnFirst pat rest).map (fun p => (c :: p.1, p.2))

/-- Splits a character sequence around the last occurrence of `pat`,
returning the part before it and the part after it, or `none` when `pat` does
not occur. -/
def splitOnLast (pat : List Char) : List Char → Option (List Char × List Char)
  | [] => if pat.isEmpty then some ([], []) else none
  | c :: rest =>
    match splitOnLast pat rest with
    | some p => some (c :: p.1, p.2)
    | none =>
      if pat.isPrefixOf (c :: rest) then some ([], (c :: rest).drop pat.length)
      else none

/-- Embeds `frontmatterMatcher.exec(testCode)?.[1]` where `frontmatterMatcher`
is the regex `/\/\*---\n(.*)---\*\//ms` (runner lines 148 and 310): the match
starts at the first occurrence of the opening marker, and the greedy
multi-line group extends to the last occurrence of the closing marker after
it; `none` when there is no match. -/
def execFrontmatter (testCode : String) : Option String :=
  match splitOnFirst "/*---\n".data testCode.data with
  | none => none
  | some (_, afterOpen) =>
    match splitOnLast "---*/".data afterOpen with
    | none => none
    | some (group, _) => some (String.mk group)

/-- Embeds the destructuring `const { flags = [], includes = [] } =
frontmatter ?? {}` (runner line 313): a missing or null document, or a
document lacking a field, contributes the empty default. -/
def destructureFrontmatter : Option Frontmatter → List String × List String
  | none => ([], [])
  | some fm => (fm.flags.getD [], fm.includes.getD [])

/-- Embeds runner line 318: unless the `raw` flag is present, the two base
helpers `assert.js` and `sta.js` are prepended (in that order) to the declared
includes. -/
def effectiveIncludes (fm : Option Frontmatter) : List String :=
  let p := destructureFrontmatter fm
  if p.1.contains "raw" then p.2 else "assert.js" :: "sta.js" :: p.2

/-- Embeds runner lines 291-294 and 319-321: each test gets a context built
from the empty environment by running the polyfill first and then each
effective include, in order.  The helper cache (runner lines 189-199) is
semantically transparent because compiled helper scripts are immutable, so a
helper's effect is modelled as a pure function of its name. -/
def envForTest (polyfill : Env → Env) (helpers : String → Env → Env)
    (fm : Option Frontmatter) : Env :=
  (effectiveIncludes fm).foldl (fun env i => helpers i env) (polyfill [])

/-- The message of the error thrown by node's `vm` when a script exceeds its
timeout budget. -/
def timeoutMessage (ms : Nat) : String := s!"Script execution timed out after {ms}ms"

/-- Modelled from the spec: node's `vm.Script.runInContext` with the `timeout`
option (runner lines 342-343) is not part of this repository.  Per its
documented interface, a body that completes yields normal completion, a body
that raises surfaces its error, and a body that would run past the budget is
preemptively terminated at the sandbox boundary, surfacing as a thrown
timeout error rather than blocking. -/
def runWithTimeout (ms : Nat) (body : Env → Env × BodyResult) (env : Env) :
    Env × ExecResult :=
  match body env with
  | (env2, .completed) => (env2, .ok)
  | (env2, .raised e) => (env2, .threw e)
  | (env2, .overran) => (env2, .threw (timeoutMessage ms))

/-- Embeds the guard `maxFailures && failures.length >= maxFailures` (runner
line 286); `none` models an absent option and, by JavaScript truthiness, a
configured value of `0` is falsy and also disables the ceiling. -/
def overFailureLimit (maxFailures : Option Nat) (numFailures : Nat) : Bool :=
  match maxFailures with
  | none => false
  | some m => if m = 0 then false else decide (numFailures ≥ m)

/-- Embeds `getRelevantExpectedFailureLists` (runner lines 177-183): the list
of every expectation-list identity whose membership set contains the test
file, in registry order, or `undefined` (here `none`) when there are none. -/
def getRelevantExpectedFailureLists (lists : List (String × List String))
    (testFile : String) : Option (List String) :=
  let ret := (lists.filter (fun p => p.2.contains testFile)).map (fun p => p.1)
  if ret.length > 0 then some ret else none

/-- Embeds runner lines 350-355: ensure the map has an entry for `listFile`
and add `relPath` to its set (`Map`/`Set` preserve insertion order; adding an
existing element is a no-op). -/
def addUnexpectedPass (m : List (String × List String)) (listFile relPath : String) :
    List (String × List String) :=
  match m with
  | [] => [(listFile, [relPath])]
  | (k, s) :: rest =>
    if k = listFile then
      (k, if s.contains relPath then s else s ++ [relPath]) :: rest
    else
      (k, s) :: addUnexpectedPass rest listFile relPath

/-- The unexpected-pass set recorded against one expectation list (empty when
the map has no entry for it). -/
def unexpectedPassesFor (m : List (String × List String)) (listFile : String) :
    List String :=
  match m with
  | [] => []
  | (k, s) :: rest => if k = listFile then s else unexpectedPassesFor rest listFile

variable (polyfill : Env → Env) (helpers : String → Env → Env)
  (yamlLoad : String → Except String (Option Frontmatter))
  (lists : List (String × List String)) (cfg : RunConfig)

/-- Embeds one iteration of the test loop (runner lines 284-373).  In order:
the failure-ceiling skip (lines 285-289); the front matter extraction and the
call to the external YAML parser (lines 310-311), whose exception — the
parser is called with no surrounding try/catch — propagates as `.error`; the
fresh context with polyfill and helpers (lines 291-294, 318-321); the
relevant expectation lists (line 332); then the try/catch classification
(lines 341-364). -/
def processTest (st : RunState) (t : TestCase) : Except String RunState :=
  if overFailureLimit cfg.maxFailures st.failures.length then
    .ok { st with skippedCount := st.skippedCount + 1 }
  else
    match yamlLoad ((execFrontmatter t.code).getD "") with
    | .error e => .error e
    | .ok frontmatter =>
      let testContext := envForTest polyfill helpers frontmatter
      let relevantLists := getRelevantExpectedFailureLists lists t.relPath
      let st1 := { st with executed := st.executed ++ [(t.relPath, testContext)] }
      match (runWithTimeout cfg.timeoutMsecs t.body testContext).2, relevantLists with
      | .ok, none => .ok { st1 with passCount := st.passCount + 1 }
      | .ok, some ls => .ok { st1 with
          unexpectedPassCount := st.unexpectedPassCount + 1,
          unexpectedPasses := ls.foldl (fun m f => addUnexpectedPass m f t.relPath) st.unexpectedPasses }
      | .threw _, some _ => .ok { st1 with expectedFailCount := st.expectedFailCount + 1 }
      | .threw e, none => .ok { st1 with failures := st.failures ++ [(t.relPath, e)] }

/-- The test loop itself (runner line 284): process the selected tests in
iteration order, threading the accumulated state; an uncaught exception from
an iteration aborts the whole loop. -/
def runLoop : List TestCase → RunState → Except String RunState
  | [], st => .ok st
  | t :: ts, st =>
    match processTest polyfill helpers yamlLoad lists cfg st t with
    | .error e => .error e
    | .ok st2 => runLoop ts st2

/-- Embeds the result computation of runner lines 381-430: `hasFailures` is
set when the failure list is nonempty or the unexpected-pass map is nonempty,
and the function returns its negation. -/
def runSuccess (st : RunState) : Bool :=
  !(decide (st.failures.length > 0) || decide (st.unexpectedPasses.length > 0))

/-- The embedded `runTest262` on an already-selected test list: run the loop
from the initial state and return the overall success boolean (runner line
430). -/
def runTest262 (tests : List TestCase) : Except String Bool :=
  match runLoop polyfill helpers yamlLoad lists cfg tests initState with
  | .error e => .error e
  | .ok st => .ok (runSuccess st)

/-- The sum of all outcome counters of a run state (the failure list's length
is the fail count). -/
def outcomeTotal (st : RunState) : Nat :=
  st.passCount + st.failures.length + st.expectedFailCount +
    st.unexpectedPassCount + st.skippedCount

/-! ## Concrete sample data for witnesses and counterexamples -/

/-- A sample polyfill effect: installs the `Temporal` global into the fresh
context. -/
def polyfillSample : Env → Env := fun env => ("Temporal", 1) :: env

/-- A sample helper-script effect: each include installs a binding named after
itself. -/
def helpersSample : String → Env → Env := fun name env => (name, 0) :: env

/-- Modelled from the spec: the external YAML parser (js-yaml `load`) applied
to the metadata header content is not part of this repository.  `load` returns
`undefined` for an empty document and throws an exception on malformed input
such as an unterminated flow mapping; this instance throws on one such
malformed document (an opening brace line) and parses everything else as an
empty document. -/
def yamlParserSample : String → Except String (Option Frontmatter) :=
  fun s => if s = "\x7b\n" then .error "unexpected end of the stream" else .ok none

/-- Two sample expectation lists: `t1.js` appears in the first only, `t2.js`
in both. -/
def sampleLists : List (String × List String) :=
  [("expected-a.txt", ["t1.js", "t2.js"]), ("expected-b.txt", ["t2.js"])]

/-- A sample configuration with the default timeout and no failure ceiling. -/
def sampleCfg : RunConfig := ⟨2000, none⟩

/-- A sample configuration with a failure ceiling of one. -/
def cfgCeiling : RunConfig := ⟨2000, some 1⟩

/-- A test listed in both expectation lists whose body completes normally (an
unexpected pass). -/
def tcPassListed : TestCase := ⟨"t2.js", "", fun env => (env, .completed)⟩

/-- A test listed in the first expectation list whose body throws (an expected
failure). -/
def tcThrowListed : TestCase := ⟨"t1.js", "", fun env => (env, .raised "Test262Error: assertion failed")⟩

/-- A test listed in both expectation lists whose body throws. -/
def tcThrowListedBoth : TestCase := ⟨"t2.js", "", fun env => (env, .raised "RangeError: bad")⟩

/-- An unlisted test whose body would run forever. -/
def tcLoopForever : TestCase := ⟨"t3.js", "", fun env => (env, .overran)⟩

/-- A test whose metadata header region is present but malformed (an
unterminated flow mapping), on which the YAML parser throws. -/
def tcBadHeader : TestCase := ⟨"bad.js", "/*---\n\x7b\n---*/\nvar x = 1;", fun env => (env, .completed)⟩

/-- A run state as left behind by an earlier test that mutated its own sandbox
(a `counter` binding visible in its trace entry) — used to show a later test
observes none of it. -/
def stAfterMutation : RunState :=
  ⟨[], [], 1, 0, 0, 0, [("t0.js", [("counter", 99), ("sta.js", 0), ("assert.js", 0), ("Temporal", 1)])]⟩

/-- A run state with one recorded failure. -/
def stOneFailure : RunState := ⟨[("t9.js", "TypeError: boom")], [], 0, 0, 0, 0, []⟩

/-- The run state after running exactly `tcThrowListed` from the initial
state: one expected failure. -/
def stExpectedFail : RunState :=
  ⟨[], [], 0, 1, 0, 0, [("t1.js", [("sta.js", 0), ("assert.js", 0), ("Temporal", 1)])]⟩

/-! ## Lemmas about line splitting and joining -/

theorem joinLinesL_cons_cons (l l2 : List Char) (ls : List (List Char)) :
    joinLinesL (l :: l2 :: ls) = l ++ '\n' :: joinLinesL (l2 :: ls) := rfl

theorem splitOnNl_ne_nil (s : List Char) : splitOnNl s ≠ [] := by
  induction s using splitOnNl.induct with
  | case1 => simp [splitOnNl]
  | case2 rest ih => simp [splitOnNl]
  | case3 c rest hc hnil ih => simp [splitOnNl, hc, hnil]
  | case4 c rest hc l ls heq ih => simp [splitOnNl, hc, heq]

theorem splitLinesL_ne_nil (s : List Char) : splitLinesL s ≠ [] := by
  induction s using splitLinesL.induct with
  | case1 => simp [splitLinesL]
  | case2 rest ih => simp [splitLinesL]
  | case3 rest hcr ih => simp [splitLinesL]
  | case4 c rest hcr hc hnil ih => simp [splitLinesL, hc, hnil]
  | case5 c rest hcr hc l ls heq ih => simp [splitLinesL, hc, heq]

theorem splitLinesL_eq_splitOnNl (s : List Char) (h : '\r' ∉ s) :
    splitLinesL s = splitOnNl s := by
  induction s using splitLinesL.induct with
  | case1 => rfl
  | case2 rest ih => exact absurd (List.mem_cons_self _ _) h
  | case3 rest hcr ih =>
    have h2 : '\r' ∉ rest := fun hm => h (List.mem_cons_of_mem _ hm)
    simp [splitLinesL, splitOnNl, ih h2]
  | case4 c rest hcr hc hnil ih => exact absurd hnil (splitLinesL_ne_nil rest)
  | case5 c rest hcr hc l ls heq ih =>
    have h2 : '\r' ∉ rest := fun hm => h (List.mem_cons_of_mem _ hm)
    have ih2 := ih h2
    have hrhs : splitOnNl (c :: rest) = (c :: l) :: ls := by
      rw [splitOnNl.eq_def]
      simp only [if_neg hc]
      rw [← ih2, heq]
    rw [hrhs, splitLinesL.eq_def]
    split
    · rename_i heq2
      simp at heq2
    · rename_i x2 rest2 heq2
      obtain ⟨hc2, -⟩ : c = '\r' ∧ rest = '\n' :: rest2 := by
        injection heq2 with a b
        exact ⟨a, b⟩
      exact absurd (hc2 ▸ List.mem_cons_self _ _) h
    · rename_i x1 c2 rest2 hguard heq2
      obtain ⟨rfl, rfl⟩ : c2 = c ∧ rest2 = rest := by
        injection heq2 with a b
        exact ⟨a.symm, b.symm⟩
      rw [if_neg hc, heq]

theorem join_splitOnNl (s : List Char) : joinLinesL (splitOnNl s) = s := by
  induction s using splitOnNl.induct with
  | case1 => rfl
  | case2 rest ih =>
    have hne := splitOnNl_ne_nil rest
    obtain ⟨l, ls, heq⟩ : ∃ l ls, splitOnNl rest = l :: ls := by
      cases hx : splitOnNl rest with
      | nil => exact absurd hx hne
      | cons l ls => exact ⟨l, ls, rfl⟩
    rw [splitOnNl.eq_def]
    simp only [if_pos rfl]
    rw [heq] at ih ⊢
    show joinLinesL ([] :: l :: ls) = '\n' :: rest
    rw [joinLinesL_cons_cons]
    simpa using ih
  | case3 c rest hc hnil ih => exact absurd hnil (splitOnNl_ne_nil rest)
  | case4 c rest hc l ls heq ih =>
    rw [splitOnNl.eq_def]
    simp only [if_neg hc]
    rw [heq] at ih ⊢
    show joinLinesL ((c :: l) :: ls) = c :: rest
    cases ls with
    | nil => simpa [joinLinesL] using ih
    | cons l2 ls2 =>
      rw [joinLinesL_cons_cons] at ih ⊢
      simpa using ih

theorem mem_splitOnNl (s : List Char) :
    ∀ l ∈ splitOnNl s, ∀ c ∈ l, c ∈ s ∧ c ≠ '\n' := by
  induction s using splitOnNl.induct with
  | case1 =>
    intro l hl c hc
    simp [splitOnNl] at hl
    subst hl
    simp at hc
  | case2 rest ih =>
    intro l hl c hc
    rw [splitOnNl.eq_def] at hl
    simp only [if_pos rfl] at hl
    rcases List.mem_cons.mp hl with rfl | hl
    · simp at hc
    · obtain ⟨h1, h2⟩ := ih l hl c hc
      exact ⟨List.mem_cons_of_mem _ h1, h2⟩
  | case3 c0 rest hc0 hnil ih => exact absurd hnil (splitOnNl_ne_nil rest)
  | case4 c0 rest hc0 l0 ls0 heq ih =>
    intro l hl c hc
    rw [splitOnNl.eq_def] at hl
    simp only [if_neg hc0, heq] at hl
    rcases List.mem_cons.mp hl with rfl | hl
    · rcases List.mem_cons.mp hc with rfl | hc
      · exact ⟨List.mem_cons_self _ _, hc0⟩
      · obtain ⟨h1, h2⟩ := ih l0 (heq ▸ List.mem_cons_self _ _) c hc
        exact ⟨List.mem_cons_of_mem _ h1, h2⟩
    · obtain ⟨h1, h2⟩ := ih l (heq ▸ List.mem_cons_of_mem _ hl) c hc
      exact ⟨List.mem_cons_of_mem _ h1, h2⟩

theorem splitOnNl_of_no_nl (l : List Char) (h : '\n' ∉ l) : splitOnNl l = [l] := by
  induction l with
  | nil => rfl
  | cons c l2 ih =>
    have hc : c ≠ '\n' := fun hc => h (hc ▸ List.mem_cons_self _ _)
    have h2 : '\n' ∉ l2 := fun hm => h (List.mem_cons_of_mem _ hm)
    rw [splitOnNl.eq_def]
    simp only [if_neg hc, ih h2]

theorem splitOnNl_append_nl (l t : List Char) (h : '\n' ∉ l) :
    splitOnNl (l ++ '\n' :: t) = l :: splitOnNl t := by
  induction l with
  | nil =>
    rw [List.nil_append, splitOnNl.eq_def]
    simp
  | cons c l2 ih =>
    have hc : c ≠ '\n' := fun hc => h (hc ▸ List.mem_cons_self _ _)
    have h2 : '\n' ∉ l2 := fun hm => h (List.mem_cons_of_mem _ hm)
    rw [List.cons_append, splitOnNl.eq_def]
    simp only [if_neg hc, ih h2]

theorem splitOnNl_join (ls : List (List Char)) (hne : ls ≠ [])
    (h : ∀ l ∈ ls, '\n' ∉ l) : splitOnNl (joinLinesL ls) = ls := by
  induction ls with
  | nil => exact absurd rfl hne
  | cons l ls2 ih =>
    cases ls2 with
    | nil =>
      show splitOnNl (joinLinesL [l]) = [l]
      rw [joinLinesL]
      exact splitOnNl_of_no_nl l (h l (List.mem_cons_self _ _))
    | cons l2 ls3 =>
      rw [joinLinesL_cons_cons]
      rw [splitOnNl_append_nl _ _ (h l (List.mem_cons_self _ _))]
      rw [ih (by simp) (fun x hx => h x (List.mem_cons_of_mem _ hx))]

theorem mem_joinLinesL (ls : List (List Char)) (c : Char) (h : c ∈ joinLinesL ls) :
    c = '\n' ∨ ∃ l ∈ ls, c ∈ l := by
  induction ls with
  | nil => simp [joinLinesL] at h
  | cons l ls2 ih =>
    cases ls2 with
    | nil =>
      rw [joinLinesL] at h
      exact Or.inr ⟨l, List.mem_cons_self _ _, h⟩
    | cons l2 ls3 =>
      rw [joinLinesL_cons_cons] at h
      rcases List.mem_append.mp h with h1 | h1
      · exact Or.inr ⟨l, List.mem_cons_self _ _, h1⟩
      · rcases List.mem_cons.mp h1 with rfl | h2
        · exact Or.inl rfl
        · rcases ih h2 with h3 | ⟨l3, h4, h5⟩
          · exact Or.inl h3
          · exact Or.inr ⟨l3, List.mem_cons_of_mem _ h4, h5⟩

theorem no_cr_in_filtered (content : List Char) (h : '\r' ∉ content)
    (p : List Char → Bool) :
    '\r' ∉ joinLinesL ((splitOnNl content).filter p) := by
  intro hmem
  rcases mem_joinLinesL _ _ hmem with h1 | ⟨l, hl, hcl⟩
  · exact absurd h1 (by decide)
  · exact h ((mem_splitOnNl content l (List.mem_filter.mp hl).1 _ hcl).1)

theorem no_nl_in_filtered_lines (content : List Char) (p : List Char → Bool) :
    ∀ l ∈ (splitOnNl content).filter p, '\n' ∉ l := by
  intro l hl hnl
  exact absurd rfl (mem_splitOnNl content l (List.mem_filter.mp hl).1 _ hnl).2

/-! ## Claims about the expectation registry (reconcile and reload) -/

/-- C3 (amended): for an expectation-list file whose content contains no
carriage return, `updateExpectedFailureFile` is a filtered copy: with an empty
remove set the file is byte-identical, and whenever at least one line
survives, the rewritten file's line sequence is exactly the original line
sequence with precisely the lines literally equal (untrimmed) to a member of
the remove set dropped — comments and blank lines preserved unchanged and in
order. -/
theorem updateExpectedFailureFile_filtered_copy (content : List Char) (R : List (List Char))
    (hcr : '\r' ∉ content)
    (hne : (splitLinesL content).filter (fun l => !R.contains l) ≠ []) :
    updateExpectedFailureFile content [] = content ∧
    splitLinesL (updateExpectedFailureFile content R) =
      (splitLinesL content).filter (fun l => !R.contains l) := by
  constructor
  · unfold updateExpectedFailureFile
    simp only [List.contains_nil, Bool.not_false, List.filter_true]
    rw [splitLinesL_eq_splitOnNl content hcr, join_splitOnNl]
  · unfold updateExpectedFailureFile
    rw [splitLinesL_eq_splitOnNl content hcr] at hne ⊢
    have hcr2 := no_cr_in_filtered content hcr (fun l => !R.contains l)
    rw [splitLinesL_eq_splitOnNl _ hcr2]
    exact splitOnNl_join _ hne (no_nl_in_filtered_lines content _)

/-- C3 witness: the reconciliation theorem applied to a concrete three-line
file with a comment line, removing `foo.js`. -/
theorem updateExpectedFailureFile_filtered_copy_witness :
    ('\r' ∉ "# known failures\nfoo.js\nbar.js\n".data) ∧
    (splitLinesL "# known failures\nfoo.js\nbar.js\n".data).filter
      (fun l => !(["foo.js".data]).contains l) ≠ [] ∧
    (updateExpectedFailureFile "# known failures\nfoo.js\nbar.js\n".data [] =
      "# known failures\nfoo.js\nbar.js\n".data ∧
    splitLinesL (updateExpectedFailureFile "# known failures\nfoo.js\nbar.js\n".data
        ["foo.js".data]) =
      (splitLinesL "# known failures\nfoo.js\nbar.js\n".data).filter
        (fun l => !(["foo.js".data]).contains l)) :=
  ⟨by decide, by decide,
    updateExpectedFailureFile_filtered_copy "# known failures\nfoo.js\nbar.js\n".data
      ["foo.js".data] (by decide) (by decide)⟩

/-- C3 counterexample to the claim as stated: the rewrite is not byte-for-byte
faithful on CRLF content (an empty remove set turns `a\r\nb` into `a\nb`), and
matching is by the exact line, not its trimmed identifier (removing `a` from
the file `a \nb`, whose first line carries a trailing blank, leaves the file
unchanged instead of producing `b`). -/
theorem updateExpectedFailureFile_not_exact_copy :
    updateExpectedFailureFile "a\r\nb".data [] ≠ "a\r\nb".data ∧
    updateExpectedFailureFile "a \nb".data ["a".data] ≠ "b".data := by
  decide

/-- C5 (amended): for an expectation-list file whose content contains no
carriage return and a remove set drawn from its membership set, reconciling
and then reloading yields exactly the original membership sequence minus the
removed identifiers (identifiers being the verbatim, untrimmed lines). -/
theorem load_update (content : List Char) (R : List (List Char)) (h : '\r' ∉ content)
    (hR : ∀ r ∈ R, r ∈ loadExpectedFailureFile content) :
    loadExpectedFailureFile (updateExpectedFailureFile content R) =
      (loadExpectedFailureFile content).filter (fun l => !R.contains l) := by
  unfold loadExpectedFailureFile updateExpectedFailureFile
  rw [splitLinesL_eq_splitOnNl content h]
  by_cases hcase :
      (splitOnNl content).filter (fun l => !R.contains l) = []
  · rw [hcase]
    have h2 : ((splitOnNl content).filter
          (fun line => !line.isEmpty && !(line.head? == some '#'))).filter
          (fun l => !R.contains l) = [] := by
      rw [List.filter_comm, hcase, List.filter_nil]
    rw [h2]
    decide
  · have hcr := no_cr_in_filtered content h (fun l => !R.contains l)
    rw [splitLinesL_eq_splitOnNl _ hcr]
    rw [splitOnNl_join _ hcase (no_nl_in_filtered_lines content _)]
    rw [List.filter_comm]

/-- C5 witness: the round-trip theorem applied to a concrete file, removing
`foo.js` from its membership set. -/
theorem load_update_witness :
    ('\r' ∉ "# known failures\nfoo.js\nbar.js\n".data) ∧
    (∀ r ∈ ["foo.js".data], r ∈ loadExpectedFailureFile "# known failures\nfoo.js\nbar.js\n".data) ∧
    loadExpectedFailureFile (updateExpectedFailureFile "# known failures\nfoo.js\nbar.js\n".data
        ["foo.js".data]) =
      (loadExpectedFailureFile "# known failures\nfoo.js\nbar.js\n".data).filter
        (fun l => !(["foo.js".data]).contains l) :=
  ⟨by decide, by decide,
    load_update "# known failures\nfoo.js\nbar.js\n".data ["foo.js".data]
      (by decide) (by decide)⟩

/-- C5 counterexample to the claim as stated: on content containing a bare
carriage return, reconciling with the empty remove set changes the membership
set (`x\r` is a member before but not after, because the CR merges into the
following separator on rewrite), and loading never trims (the line with a
leading blank is a member verbatim; its trimmed form is not). -/
theorem load_update_not_set_difference :
    ("x\r".data ∈ loadExpectedFailureFile "x\r\r\ny".data) ∧
    ("x\r".data ∉ loadExpectedFailureFile (updateExpectedFailureFile "x\r\r\ny".data [])) ∧
    (" a".data ∈ loadExpectedFailureFile " a\nb".data) ∧
    ("a".data ∉ loadExpectedFailureFile " a\nb".data) := by
  decide

/-! ## Lemmas about the expectation registry query and the unexpected-pass map -/

theorem getRelevant_eq_none_iff (r : String) :
    getRelevantExpectedFailureLists lists r = none ↔ ∀ p ∈ lists, r ∉ p.2 := by
  unfold getRelevantExpectedFailureLists
  dsimp only
  split
  · rename_i hlen
    simp only [reduceCtorEq, false_iff]
    intro hall
    have hmap : (lists.filter (fun p => p.2.contains r)).map (fun p => p.1) = [] := by
      rw [List.map_eq_nil_iff, List.filter_eq_nil_iff]
      intro p hp
      exact fun hc => hall p hp (List.mem_of_elem_eq_true hc)
    rw [hmap] at hlen
    simp at hlen
  · rename_i hlen
    simp only [true_iff]
    intro p hp hr
    apply hlen
    have hfil : (lists.filter (fun p => p.2.contains r)) ≠ [] := by
      intro hnil
      rw [List.filter_eq_nil_iff] at hnil
      exact hnil p hp (List.elem_eq_true_of_mem hr)
    simp only [List.length_map, List.length_pos]
    exact hfil

theorem getRelevant_eq_some (r : String) (ls : List String)
    (h : getRelevantExpectedFailureLists lists r = some ls) :
    ls ≠ [] ∧ ∀ f, f ∈ ls ↔ ∃ p ∈ lists, p.1 = f ∧ r ∈ p.2 := by
  unfold getRelevantExpectedFailureLists at h
  dsimp only at h
  split at h
  · rename_i hlen
    obtain rfl : _ = ls := Option.some.inj h
    constructor
    · intro hnil
      rw [hnil] at hlen
      simp at hlen
    · intro f
      simp only [List.mem_map, List.mem_filter]
      constructor
      · rintro ⟨p, ⟨hp, hc⟩, rfl⟩
        exact ⟨p, hp, rfl, List.mem_of_elem_eq_true hc⟩
      · rintro ⟨p, hp, rfl, hr⟩
        exact ⟨p, ⟨hp, List.elem_eq_true_of_mem hr⟩, rfl⟩
  · exact absurd h (by simp)

theorem mem_addUnexpectedPass_self (m : List (String × List String)) (f rel : String) :
    rel ∈ unexpectedPassesFor (addUnexpectedPass m f rel) f := by
  induction m with
  | nil => simp [addUnexpectedPass, unexpectedPassesFor]
  | cons p rest ih =>
    obtain ⟨k, s⟩ := p
    by_cases hk : k = f
    · subst hk
      simp only [addUnexpectedPass, if_pos rfl, unexpectedPassesFor]
      by_cases hc : s.contains rel = true
      · rw [if_pos hc]
        exact List.mem_of_elem_eq_true hc
      · rw [if_neg hc]
        simp
    · simp only [addUnexpectedPass, if_neg hk, unexpectedPassesFor]
      simpa [hk] using ih

theorem mem_addUnexpectedPass_mono (m : List (String × List String)) (f rel g x : String)
    (h : x ∈ unexpectedPassesFor m g) :
    x ∈ unexpectedPassesFor (addUnexpectedPass m f rel) g := by
  induction m with
  | nil => simp [unexpectedPassesFor] at h
  | cons p rest ih =>
    obtain ⟨k, s⟩ := p
    by_cases hk : k = f
    · subst hk
      simp only [addUnexpectedPass, if_pos rfl, unexpectedPassesFor] at h ⊢
      by_cases hg : k = g
      · simp only [if_pos hg] at h ⊢
        split
        · exact h
        · exact List.mem_append.mpr (Or.inl h)
      · simpa [if_neg hg] using h
    · simp only [addUnexpectedPass, if_neg hk, unexpectedPassesFor] at h ⊢
      by_cases hg : k = g
      · simpa [if_pos hg] using h
      · simp only [if_neg hg] at h ⊢
        exact ih h

theorem mem_foldl_addUnexpectedPass_of_mem (ls : List String) (rel f : String) :
    ∀ m, rel ∈ unexpectedPassesFor m f →
      rel ∈ unexpectedPassesFor (ls.foldl (fun m g => addUnexpectedPass m g rel) m) f := by
  induction ls with
  | nil => intro m h; simpa using h
  | cons l ls2 ih =>
    intro m h
    rw [List.foldl_cons]
    exact ih _ (mem_addUnexpectedPass_mono _ _ _ _ _ h)

theorem mem_foldl_addUnexpectedPass (ls : List String) (rel : String) :
    ∀ m, ∀ f ∈ ls, rel ∈ unexpectedPassesFor (ls.foldl (fun m g => addUnexpectedPass m g rel) m) f := by
  induction ls with
  | nil => intro m f hf; simp at hf
  | cons l ls2 ih =>
    intro m f hf
    rw [List.foldl_cons]
    rcases List.mem_cons.mp hf with rfl | hf2
    · exact mem_foldl_addUnexpectedPass_of_mem ls2 rel f _ (mem_addUnexpectedPass_self m f rel)
    · exact ih _ f hf2

theorem addUnexpectedPass_ne_nil (m : List (String × List String)) (f rel : String) :
    addUnexpectedPass m f rel ≠ [] := by
  cases m with
  | nil => simp [addUnexpectedPass]
  | cons p rest =>
    obtain ⟨k, s⟩ := p
    by_cases hk : k = f <;> simp [addUnexpectedPass, hk]

theorem foldl_addUnexpectedPass_ne_nil (ls : List String) (rel : String) (m : List (String × List String))
    (h : ls ≠ [] ∨ m ≠ []) :
    ls.foldl (fun m g => addUnexpectedPass m g rel) m ≠ [] := by
  induction ls generalizing m with
  | nil =>
    rcases h with h | h
    · exact absurd rfl h
    · simpa using h
  | cons l ls2 ih =>
    rw [List.foldl_cons]
    exact ih _ (Or.inr (addUnexpectedPass_ne_nil m l rel))

/-! ## Claims about the test loop -/

/-- C1: the outcome decision table of a non-skipped test whose metadata parse
succeeds.  The first two conjuncts identify `relevantLists = none` with "no
expectation list contains the identifier" and `some ls` with "`ls` is exactly
the lists containing it".  The remaining four conjuncts are the table rows: a
body that executes without throwing is a Pass when unlisted, and an
UnexpectedPass recorded against every relevant list when listed; a body that
throws (timeouts included) is an ExpectedFail when listed, and a Fail recorded
with the thrown error payload when unlisted. -/
theorem classification_decision_table
    (st : RunState) (t : TestCase) (fm : Option Frontmatter)
    (hskip : overFailureLimit cfg.maxFailures st.failures.length = false)
    (hyaml : yamlLoad ((execFrontmatter t.code).getD "") = .ok fm) :
    (getRelevantExpectedFailureLists lists t.relPath = none ↔ ∀ p ∈ lists, t.relPath ∉ p.2) ∧
    (∀ ls, getRelevantExpectedFailureLists lists t.relPath = some ls →
      ∀ f, f ∈ ls ↔ ∃ p ∈ lists, p.1 = f ∧ t.relPath ∈ p.2) ∧
    ((runWithTimeout cfg.timeoutMsecs t.body (envForTest polyfill helpers fm)).2 = .ok →
      getRelevantExpectedFailureLists lists t.relPath = none →
      processTest polyfill helpers yamlLoad lists cfg st t = .ok
        { st with
          executed := st.executed ++ [(t.relPath, envForTest polyfill helpers fm)],
          passCount := st.passCount + 1 }) ∧
    (∀ ls, (runWithTimeout cfg.timeoutMsecs t.body (envForTest polyfill helpers fm)).2 = .ok →
      getRelevantExpectedFailureLists lists t.relPath = some ls →
      processTest polyfill helpers yamlLoad lists cfg st t = .ok
        { st with
          executed := st.executed ++ [(t.relPath, envForTest polyfill helpers fm)],
          unexpectedPassCount := st.unexpectedPassCount + 1,
          unexpectedPasses := ls.foldl (fun m f => addUnexpectedPass m f t.relPath) st.unexpectedPasses } ∧
      ∀ f ∈ ls, t.relPath ∈ unexpectedPassesFor
        (ls.foldl (fun m f => addUnexpectedPass m f t.relPath) st.unexpectedPasses) f) ∧
    (∀ e ls, (runWithTimeout cfg.timeoutMsecs t.body (envForTest polyfill helpers fm)).2 = .threw e →
      getRelevantExpectedFailureLists lists t.relPath = some ls →
      processTest polyfill helpers yamlLoad lists cfg st t = .ok
        { st with
          executed := st.executed ++ [(t.relPath, envForTest polyfill helpers fm)],
          expectedFailCount := st.expectedFailCount + 1 }) ∧
    (∀ e, (runWithTimeout cfg.timeoutMsecs t.body (envForTest polyfill helpers fm)).2 = .threw e →
      getRelevantExpectedFailureLists lists t.relPath = none →
      processTest polyfill helpers yamlLoad lists cfg st t = .ok
        { st with
          executed := st.executed ++ [(t.relPath, envForTest polyfill helpers fm)],
          failures := st.failures ++ [(t.relPath, e)] }) := by
  refine ⟨getRelevant_eq_none_iff lists t.relPath, ?_, ?_, ?_, ?_, ?_⟩
  · intro ls hls
    exact (getRelevant_eq_some lists t.relPath ls hls).2
  · intro hres hrel
    unfold processTest
    rw [hskip]
    simp only [Bool.false_eq_true, if_false]
    rw [hyaml]
    dsimp only
    rw [hres, hrel]
  · intro ls hres hrel
    refine ⟨?_, mem_foldl_addUnexpectedPass ls t.relPath st.unexpectedPasses⟩
    unfold processTest
    rw [hskip]
    simp only [Bool.false_eq_true, if_false]
    rw [hyaml]
    dsimp only
    rw [hres, hrel]
  · intro e ls hres hrel
    unfold processTest
    rw [hskip]
    simp only [Bool.false_eq_true, if_false]
    rw [hyaml]
    dsimp only
    rw [hres, hrel]
  · intro e hres hrel
    unfold processTest
    rw [hskip]
    simp only [Bool.false_eq_true, if_false]
    rw [hyaml]
    dsimp only
    rw [hres, hrel]

theorem processTest_executed (st : RunState) (t : TestCase) (fm : Option Frontmatter)
    (hskip : overFailureLimit cfg.maxFailures st.failures.length = false)
    (hyaml : yamlLoad ((execFrontmatter t.code).getD "") = .ok fm) :
    ∃ st2, processTest polyfill helpers yamlLoad lists cfg st t = .ok st2 ∧
      st2.executed = st.executed ++ [(t.relPath, envForTest polyfill helpers fm)] := by
  unfold processTest
  rw [hskip]
  simp only [Bool.false_eq_true, if_false]
  rw [hyaml]
  dsimp only
  rcases hres : (runWithTimeout cfg.timeoutMsecs t.body (envForTest polyfill helpers fm)).2 with _ | e <;>
    rcases hrel : getRelevantExpectedFailureLists lists t.relPath with _ | ls <;>
    exact ⟨_, rfl, rfl⟩

/-- C2: per-test sandbox isolation.  Whatever states `s1` and `s2` two runs
have accumulated (in particular, whatever bindings earlier test bodies created
or mutated in their own sandboxes), an executed test's body is handed the very
same environment in both runs: the one rebuilt from the empty context by the
polyfill and the test's own effective includes, independent of all prior
execution. -/
theorem sandbox_isolation (s1 s2 : RunState) (t : TestCase) (fm : Option Frontmatter)
    (hskip1 : overFailureLimit cfg.maxFailures s1.failures.length = false)
    (hskip2 : overFailureLimit cfg.maxFailures s2.failures.length = false)
    (hyaml : yamlLoad ((execFrontmatter t.code).getD "") = .ok fm) :
    (∃ st1, processTest polyfill helpers yamlLoad lists cfg s1 t = .ok st1 ∧
       st1.executed = s1.executed ++ [(t.relPath, envForTest polyfill helpers fm)]) ∧
    (∃ st2, processTest polyfill helpers yamlLoad lists cfg s2 t = .ok st2 ∧
       st2.executed = s2.executed ++ [(t.relPath, envForTest polyfill helpers fm)]) ∧
    envForTest polyfill helpers fm =
      (effectiveIncludes fm).foldl (fun env i => helpers i env) (polyfill []) :=
  ⟨processTest_executed polyfill helpers yamlLoad lists cfg s1 t fm hskip1 hyaml,
   processTest_executed polyfill helpers yamlLoad lists cfg s2 t fm hskip2 hyaml,
   rfl⟩

/-- C6: once the recorded failures have reached a configured positive ceiling,
the remainder of the loop only increments the skipped counter: every remaining
test is marked Skipped, no remaining test body is executed (the `executed`
trace is unchanged), and every other component of the state — all previously
completed outcomes included — stands unchanged. -/
theorem failure_ceiling_skips (m : Nat) (hm : 0 < m) (hcfg : cfg.maxFailures = some m)
    (st : RunState) (hreach : m ≤ st.failures.length) (rest : List TestCase) :
    runLoop polyfill helpers yamlLoad lists cfg rest st =
      .ok { st with skippedCount := st.skippedCount + rest.length } := by
  induction rest generalizing st with
  | nil => simp [runLoop]
  | cons t ts ih =>
    rw [runLoop]
    have hover : overFailureLimit cfg.maxFailures st.failures.length = true := by
      rw [hcfg]
      show (if m = 0 then false else decide (st.failures.length ≥ m)) = true
      rw [if_neg (Nat.pos_iff_ne_zero.mp hm)]
      exact decide_eq_true hreach
    unfold processTest
    rw [hover]
    rw [if_pos rfl]
    dsimp only
    rw [ih { st with skippedCount := st.skippedCount + 1 } (by simpa using hreach)]
    dsimp only
    rw [List.length_cons]
    have harith : st.skippedCount + 1 + ts.length = st.skippedCount + (ts.length + 1) := by omega
    rw [harith]

theorem processTest_outcomeTotal (st : RunState) (t : TestCase) (st2 : RunState)
    (h : processTest polyfill helpers yamlLoad lists cfg st t = .ok st2) :
    outcomeTotal st2 = outcomeTotal st + 1 := by
  unfold processTest at h
  by_cases hover : overFailureLimit cfg.maxFailures st.failures.length = true
  · rw [if_pos hover] at h
    obtain rfl : _ = st2 := Except.ok.inj h
    simp [outcomeTotal]
    omega
  · rw [if_neg hover] at h
    rcases hy : yamlLoad ((execFrontmatter t.code).getD "") with e | fm <;> rw [hy] at h
    · exact absurd h (by simp)
    · dsimp only at h
      rcases hres : (runWithTimeout cfg.timeoutMsecs t.body (envForTest polyfill helpers fm)).2 with _ | e <;>
        rcases hrel : getRelevantExpectedFailureLists lists t.relPath with _ | ls <;>
        rw [hres, hrel] at h <;>
        · obtain rfl : _ = st2 := Except.ok.inj h
          simp [outcomeTotal]
          omega

theorem runLoop_outcomeTotal (ts : List TestCase) :
    ∀ s0 st, runLoop polyfill helpers yamlLoad lists cfg ts s0 = .ok st →
      outcomeTotal st = outcomeTotal s0 + ts.length := by
  induction ts with
  | nil =>
    intro s0 st h
    rw [runLoop] at h
    obtain rfl : s0 = st := Except.ok.inj h
    simp
  | cons t ts2 ih =>
    intro s0 st h
    rw [runLoop] at h
    rcases hp : processTest polyfill helpers yamlLoad lists cfg s0 t with e | s1 <;> rw [hp] at h
    · exact absurd h (by simp)
    · have h1 := processTest_outcomeTotal polyfill helpers yamlLoad lists cfg s0 t s1 hp
      have h2 := ih s1 st h
      rw [h2, h1, List.length_cons]
      omega

/-- C7: classification is total and exclusive.  Every successfully processed
test changes the outcome counters' sum by exactly one (each test receives
exactly one outcome), and at the end of a completed run the counters satisfy
passCount + failCount + expectedFailCount + unexpectedPassCount + skippedCount
= number of selected tests. -/
theorem outcome_counters (ts : List TestCase) (st : RunState)
    (h : runLoop polyfill helpers yamlLoad lists cfg ts initState = .ok st) :
    outcomeTotal st = ts.length ∧
    (∀ s1 t s2, processTest polyfill helpers yamlLoad lists cfg s1 t = .ok s2 →
      outcomeTotal s2 = outcomeTotal s1 + 1) := by
  constructor
  · have hrun := runLoop_outcomeTotal polyfill helpers yamlLoad lists cfg ts initState st h
    simpa [initState, outcomeTotal] using hrun
  · exact fun s1 t s2 => processTest_outcomeTotal polyfill helpers yamlLoad lists cfg s1 t s2

theorem processTest_passes_inv (st : RunState) (t : TestCase) (st2 : RunState)
    (hinv : st.unexpectedPasses = [] ↔ st.unexpectedPassCount = 0)
    (h : processTest polyfill helpers yamlLoad lists cfg st t = .ok st2) :
    st2.unexpectedPasses = [] ↔ st2.unexpectedPassCount = 0 := by
  unfold processTest at h
  by_cases hover : overFailureLimit cfg.maxFailures st.failures.length = true
  · rw [if_pos hover] at h
    obtain rfl : _ = st2 := Except.ok.inj h
    simpa using hinv
  · rw [if_neg hover] at h
    rcases hy : yamlLoad ((execFrontmatter t.code).getD "") with e | fm <;> rw [hy] at h
    · exact absurd h (by simp)
    · dsimp only at h
      rcases hres : (runWithTimeout cfg.timeoutMsecs t.body (envForTest polyfill helpers fm)).2 with _ | e <;>
        rcases hrel : getRelevantExpectedFailureLists lists t.relPath with _ | ls <;>
        rw [hres, hrel] at h <;>
        obtain rfl : _ = st2 := Except.ok.inj h
      · simpa using hinv
      · have hne : ls ≠ [] := (getRelevant_eq_some lists t.relPath ls hrel).1
        have hfoldl := foldl_addUnexpectedPass_ne_nil ls t.relPath st.unexpectedPasses (Or.inl hne)
        simp [hfoldl]
      · simpa using hinv
      · simpa using hinv

theorem runLoop_passes_inv (ts : List TestCase) :
    ∀ s0 st, (s0.unexpectedPasses = [] ↔ s0.unexpectedPassCount = 0) →
      runLoop polyfill helpers yamlLoad lists cfg ts s0 = .ok st →
      (st.unexpectedPasses = [] ↔ st.unexpectedPassCount = 0) := by
  induction ts with
  | nil =>
    intro s0 st hinv h
    rw [runLoop] at h
    obtain rfl : s0 = st := Except.ok.inj h
    exact hinv
  | cons t ts2 ih =>
    intro s0 st hinv h
    rw [runLoop] at h
    rcases hp : processTest polyfill helpers yamlLoad lists cfg s0 t with e | s1 <;> rw [hp] at h
    · exact absurd h (by simp)
    · exact ih s1 st (processTest_passes_inv polyfill helpers yamlLoad lists cfg s0 t s1 hinv hp) h

/-- C8: the run's return value.  On a completed run, `runTest262` returns the
success boolean computed from the final state, and that boolean is `true`
exactly when the count of unexpected failures is zero and the count of
unexpected passes is zero — expected failures and skipped tests play no part
in it. -/
theorem run_success_iff (ts : List TestCase) (st : RunState)
    (h : runLoop polyfill helpers yamlLoad lists cfg ts initState = .ok st) :
    runTest262 polyfill helpers yamlLoad lists cfg ts = .ok (runSuccess st) ∧
    (runSuccess st = true ↔ st.failures.length = 0 ∧ st.unexpectedPassCount = 0) := by
  constructor
  · unfold runTest262
    rw [h]
  · have hinv := runLoop_passes_inv polyfill helpers yamlLoad lists cfg ts initState st
      (by simp [initState]) h
    unfold runSuccess
    simp only [Bool.not_eq_true', Bool.or_eq_false_iff, decide_eq_false_iff_not, not_lt,
      Nat.le_zero, List.length_eq_zero]
    constructor
    · rintro ⟨h1, h2⟩
      exact ⟨h1, hinv.mp h2⟩
    · rintro ⟨h1, h2⟩
      exact ⟨h1, hinv.mpr h2⟩

/-- C9: a test whose body would exceed the timeout budget is terminated at the
sandbox boundary and surfaces as a thrown timeout error carrying a payload
that describes the timeout; per the decision table it is recorded as a Fail
with that payload when unlisted and as an ExpectedFail when listed, and in
either case the loop continues with the remaining tests. -/
theorem timeout_outcome (st : RunState) (t : TestCase) (fm : Option Frontmatter)
    (hskip : overFailureLimit cfg.maxFailures st.failures.length = false)
    (hyaml : yamlLoad ((execFrontmatter t.code).getD "") = .ok fm)
    (hb : ∀ env, (t.body env).2 = .overran) :
    (getRelevantExpectedFailureLists lists t.relPath = none →
      processTest polyfill helpers yamlLoad lists cfg st t = .ok
        { st with
          executed := st.executed ++ [(t.relPath, envForTest polyfill helpers fm)],
          failures := st.failures ++ [(t.relPath, timeoutMessage cfg.timeoutMsecs)] }) ∧
    (∀ ls, getRelevantExpectedFailureLists lists t.relPath = some ls →
      processTest polyfill helpers yamlLoad lists cfg st t = .ok
        { st with
          executed := st.executed ++ [(t.relPath, envForTest polyfill helpers fm)],
          expectedFailCount := st.expectedFailCount + 1 }) ∧
    (∀ rest st2, processTest polyfill helpers yamlLoad lists cfg st t = .ok st2 →
      runLoop polyfill helpers yamlLoad lists cfg (t :: rest) st =
        runLoop polyfill helpers yamlLoad lists cfg rest st2) := by
  have h2 := hb (envForTest polyfill helpers fm)
  have hres : (runWithTimeout cfg.timeoutMsecs t.body (envForTest polyfill helpers fm)).2
      = .threw (timeoutMessage cfg.timeoutMsecs) := by
    unfold runWithTimeout
    rcases hbe : t.body (envForTest polyfill helpers fm) with ⟨env2, r⟩
    rw [hbe] at h2
    dsimp only at h2
    subst h2
    rfl
  refine ⟨?_, ?_, ?_⟩
  · intro hrel
    unfold processTest
    rw [hskip]
    simp only [Bool.false_eq_true, if_false]
    rw [hyaml]
    dsimp only
    rw [hres, hrel]
  · intro ls hrel
    unfold processTest
    rw [hskip]
    simp only [Bool.false_eq_true, if_false]
    rw [hyaml]
    dsimp only
    rw [hres, hrel]
  · intro rest st2 hp
    rw [runLoop, hp]

theorem processTest_failures_grow (st : RunState) (t : TestCase) (st2 : RunState)
    (h : processTest polyfill helpers yamlLoad lists cfg st t = .ok st2) :
    st2.failures = st.failures ∨
      (getRelevantExpectedFailureLists lists t.relPath = none ∧
        ∃ e, st2.failures = st.failures ++ [(t.relPath, e)]) := by
  unfold processTest at h
  by_cases hover : overFailureLimit cfg.maxFailures st.failures.length = true
  · rw [if_pos hover] at h
    obtain rfl : _ = st2 := Except.ok.inj h
    exact Or.inl rfl
  · rw [if_neg hover] at h
    rcases hy : yamlLoad ((execFrontmatter t.code).getD "") with e | fm <;> rw [hy] at h
    · exact absurd h (by simp)
    · dsimp only at h
      rcases hres : (runWithTimeout cfg.timeoutMsecs t.body (envForTest polyfill helpers fm)).2 with _ | e <;>
        rcases hrel : getRelevantExpectedFailureLists lists t.relPath with _ | ls <;>
        rw [hres, hrel] at h <;>
        obtain rfl : _ = st2 := Except.ok.inj h
      · exact Or.inl rfl
      · exact Or.inl rfl
      · exact Or.inr ⟨rfl, e, rfl⟩
      · exact Or.inl rfl

theorem overFailureLimit_zero (mf : Option Nat) : overFailureLimit mf 0 = false := by
  cases mf with
  | none => rfl
  | some m =>
    by_cases hm : m = 0
    · simp [overFailureLimit, hm]
    · simp [overFailureLimit, hm]

theorem runLoop_all_expected (ts : List TestCase)
    (h1 : ∀ t ∈ ts, ∃ fm, yamlLoad ((execFrontmatter t.code).getD "") = .ok fm)
    (h2 : ∀ t ∈ ts, ∀ env, (t.body env).2 ≠ .completed)
    (h3 : ∀ t ∈ ts, getRelevantExpectedFailureLists lists t.relPath ≠ none) :
    ∀ s0, s0.failures = [] →
      ∃ st, runLoop polyfill helpers yamlLoad lists cfg ts s0 = .ok st ∧
        st.failures = [] ∧
        st.skippedCount = s0.skippedCount ∧
        st.expectedFailCount = s0.expectedFailCount + ts.length ∧
        st.executed.length = s0.executed.length + ts.length ∧
        st.passCount = s0.passCount ∧
        st.unexpectedPassCount = s0.unexpectedPassCount := by
  revert h1 h2 h3
  induction ts with
  | nil =>
    intro h1 h2 h3 s0 hf
    exact ⟨s0, by rw [runLoop], hf, rfl, by simp, by simp, rfl, rfl⟩
  | cons t ts2 ih =>
    intro h1 h2 h3 s0 hf
    obtain ⟨fm, hy⟩ := h1 t (List.mem_cons_self _ _)
    have hskip : overFailureLimit cfg.maxFailures s0.failures.length = false := by
      rw [hf]
      exact overFailureLimit_zero cfg.maxFailures
    have hnc := h2 t (List.mem_cons_self _ _) (envForTest polyfill helpers fm)
    have hth : ∃ e, (runWithTimeout cfg.timeoutMsecs t.body (envForTest polyfill helpers fm)).2 = .threw e := by
      unfold runWithTimeout
      rcases hbe : t.body (envForTest polyfill helpers fm) with ⟨env2, r⟩
      rw [hbe] at hnc
      dsimp only at hnc
      cases r with
      | completed => exact absurd rfl hnc
      | raised e => exact ⟨e, rfl⟩
      | overran => exact ⟨timeoutMessage cfg.timeoutMsecs, rfl⟩
    obtain ⟨e, hres⟩ := hth
    obtain ⟨ls, hrel⟩ : ∃ ls, getRelevantExpectedFailureLists lists t.relPath = some ls := by
      rcases hx : getRelevantExpectedFailureLists lists t.relPath with _ | ls
      · exact absurd hx (h3 t (List.mem_cons_self _ _))
      · exact ⟨ls, rfl⟩
    have hp : processTest polyfill helpers yamlLoad lists cfg s0 t = .ok
        { s0 with
          executed := s0.executed ++ [(t.relPath, envForTest polyfill helpers fm)],
          expectedFailCount := s0.expectedFailCount + 1 } := by
      unfold processTest
      rw [hskip]
      simp only [Bool.false_eq_true, if_false]
      rw [hy]
      dsimp only
      rw [hres, hrel]
    obtain ⟨st, hrun, hstf, hsk, hef, hex, hpc, hup⟩ :=
      ih (fun t ht => h1 t (List.mem_cons_of_mem _ ht))
         (fun t ht => h2 t (List.mem_cons_of_mem _ ht))
         (fun t ht => h3 t (List.mem_cons_of_mem _ ht))
         { s0 with
           executed := s0.executed ++ [(t.relPath, envForTest polyfill helpers fm)],
           expectedFailCount := s0.expectedFailCount + 1 }
         (by simpa using hf)
    refine ⟨st, ?_, hstf, ?_, ?_, ?_, ?_, ?_⟩
    · rw [runLoop, hp]
      exact hrun
    · simpa using hsk
    · simp only [List.length_cons]
      simp at hef
      omega
    · simp only [List.length_cons]
      simp at hex
      omega
    · simpa using hpc
    · simpa using hup

/-- C10: only Fail outcomes count toward the failure ceiling.  The failure
list compared against `maxFailures` grows only when a test throws and appears
in no expectation list (first conjunct); consequently, for any configured
ceiling, a run consisting entirely of expected failures — every test throws
and is listed — completes with no test skipped, every test executed, and no
recorded failure (second conjunct). -/
theorem expected_failures_never_short_circuit (ts : List TestCase)
    (h1 : ∀ t ∈ ts, ∃ fm, yamlLoad ((execFrontmatter t.code).getD "") = .ok fm)
    (h2 : ∀ t ∈ ts, ∀ env, (t.body env).2 ≠ .completed)
    (h3 : ∀ t ∈ ts, getRelevantExpectedFailureLists lists t.relPath ≠ none) :
    (∀ st t st2, processTest polyfill helpers yamlLoad lists cfg st t = .ok st2 →
      st2.failures = st.failures ∨
        (getRelevantExpectedFailureLists lists t.relPath = none ∧
          ∃ e, st2.failures = st.failures ++ [(t.relPath, e)])) ∧
    (∃ st, runLoop polyfill helpers yamlLoad lists cfg ts initState = .ok st ∧
      st.skippedCount = 0 ∧ st.failures = [] ∧
      st.expectedFailCount = ts.length ∧ st.executed.length = ts.length) := by
  constructor
  · exact fun st t st2 => processTest_failures_grow polyfill helpers yamlLoad lists cfg st t st2
  · obtain ⟨st, hrun, hstf, hsk, hef, hex, -, -⟩ :=
      runLoop_all_expected polyfill helpers yamlLoad lists cfg ts h1 h2 h3 initState rfl
    exact ⟨st, hrun, by simpa [initState] using hsk, hstf,
      by simpa [initState] using hef, by simpa [initState] using hex⟩

/-- C4 (amended): handling of the metadata header.  When the delimited header
region is missing, the front-matter string is empty, the parser yields no
document, the metadata destructures to (flags = ∅, includes = []), and the
test proceeds with just the two base helpers injected.  But when the region is
present and the YAML parser throws on its content, the exception propagates —
the parser is invoked with no surrounding try/catch — and the whole run
aborts with it. -/
theorem metadata_header_handling (st : RunState) (t : TestCase)
    (hskip : overFailureLimit cfg.maxFailures st.failures.length = false) :
    (execFrontmatter t.code = none → yamlLoad "" = .ok none →
      ∃ st2, processTest polyfill helpers yamlLoad lists cfg st t = .ok st2 ∧
        st2.executed = st.executed ++ [(t.relPath, envForTest polyfill helpers none)] ∧
        destructureFrontmatter none = ([], []) ∧
        effectiveIncludes none = ["assert.js", "sta.js"]) ∧
    (∀ r e, execFrontmatter t.code = some r → yamlLoad r = .error e →
      processTest polyfill helpers yamlLoad lists cfg st t = .error e) := by
  constructor
  · intro hfm hy0
    have hyaml : yamlLoad ((execFrontmatter t.code).getD "") = .ok none := by
      rw [hfm]
      exact hy0
    obtain ⟨st2, hp, hex⟩ :=
      processTest_executed polyfill helpers yamlLoad lists cfg st t none hskip hyaml
    exact ⟨st2, hp, hex, rfl, rfl⟩
  · intro r e hfm hy
    unfold processTest
    rw [hskip]
    simp only [Bool.false_eq_true, if_false]
    rw [hfm]
    simp only [Option.getD_some]
    rw [hy]

/-- C4 counterexample to the claim as stated: a test whose header region is
present but malformed — an unterminated flow mapping on which the YAML parser
throws — does not proceed with empty metadata; the exception escapes the loop
and the run aborts before classifying anything. -/
theorem metadata_header_throw_is_fatal :
    execFrontmatter tcBadHeader.code = some "\x7b\n" ∧
    yamlParserSample "\x7b\n" = .error "unexpected end of the stream" ∧
    runLoop polyfillSample helpersSample yamlParserSample sampleLists sampleCfg
        [tcBadHeader] initState = .error "unexpected end of the stream" :=
  ⟨by decide, rfl, rfl⟩

/-- C1 witness: the decision table instantiated at the initial state and a
test listed in both sample expectation lists whose body completes. -/
theorem classification_decision_table_witness :
    overFailureLimit sampleCfg.maxFailures initState.failures.length = false ∧
    yamlParserSample ((execFrontmatter tcPassListed.code).getD "") = .ok none ∧
    ((getRelevantExpectedFailureLists sampleLists tcPassListed.relPath = none ↔
        ∀ p ∈ sampleLists, tcPassListed.relPath ∉ p.2) ∧
      (∀ ls, getRelevantExpectedFailureLists sampleLists tcPassListed.relPath = some ls →
        ∀ f, f ∈ ls ↔ ∃ p ∈ sampleLists, p.1 = f ∧ tcPassListed.relPath ∈ p.2) ∧
      ((runWithTimeout sampleCfg.timeoutMsecs tcPassListed.body
          (envForTest polyfillSample helpersSample none)).2 = .ok →
        getRelevantExpectedFailureLists sampleLists tcPassListed.relPath = none →
        processTest polyfillSample helpersSample yamlParserSample sampleLists sampleCfg
            initState tcPassListed = .ok
          { initState with
            executed := initState.executed ++
              [(tcPassListed.relPath, envForTest polyfillSample helpersSample none)],
            passCount := initState.passCount + 1 }) ∧
      (∀ ls, (runWithTimeout sampleCfg.timeoutMsecs tcPassListed.body
          (envForTest polyfillSample helpersSample none)).2 = .ok →
        getRelevantExpectedFailureLists sampleLists tcPassListed.relPath = some ls →
        processTest polyfillSample helpersSample yamlParserSample sampleLists sampleCfg
            initState tcPassListed = .ok
          { initState with
            executed := initState.executed ++
              [(tcPassListed.relPath, envForTest polyfillSample helpersSample none)],
            unexpectedPassCount := initState.unexpectedPassCount + 1,
            unexpectedPasses := ls.foldl (fun m f => addUnexpectedPass m f tcPassListed.relPath)
              initState.unexpectedPasses } ∧
        ∀ f ∈ ls, tcPassListed.relPath ∈ unexpectedPassesFor
          (ls.foldl (fun m f => addUnexpectedPass m f tcPassListed.relPath)
            initState.unexpectedPasses) f) ∧
      (∀ e ls, (runWithTimeout sampleCfg.timeoutMsecs tcPassListed.body
          (envForTest polyfillSample helpersSample none)).2 = .threw e →
        getRelevantExpectedFailureLists sampleLists tcPassListed.relPath = some ls →
        processTest polyfillSample helpersSample yamlParserSample sampleLists sampleCfg
            initState tcPassListed = .ok
          { initState with
            executed := initState.executed ++
              [(tcPassListed.relPath, envForTest polyfillSample helpersSample none)],
            expectedFailCount := initState.expectedFailCount + 1 }) ∧
      (∀ e, (runWithTimeout sampleCfg.timeoutMsecs tcPassListed.body
          (envForTest polyfillSample helpersSample none)).2 = .threw e →
        getRelevantExpectedFailureLists sampleLists tcPassListed.relPath = none →
        processTest polyfillSample helpersSample yamlParserSample sampleLists sampleCfg
            initState tcPassListed = .ok
          { initState with
            executed := initState.executed ++
              [(tcPassListed.relPath, envForTest polyfillSample helpersSample none)],
            failures := initState.failures ++ [(tcPassListed.relPath, e)] })) :=
  ⟨rfl, rfl, classification_decision_table polyfillSample helpersSample yamlParserSample
    sampleLists sampleCfg initState tcPassListed none rfl rfl⟩

/-- C2 witness: isolation instantiated with the initial state on one side and
a state left behind by an earlier test that installed a `counter` binding in
its own sandbox on the other; the next test's body receives the same fresh
environment in both. -/
theorem sandbox_isolation_witness :
    overFailureLimit sampleCfg.maxFailures initState.failures.length = false ∧
    overFailureLimit sampleCfg.maxFailures stAfterMutation.failures.length = false ∧
    yamlParserSample ((execFrontmatter tcPassListed.code).getD "") = .ok none ∧
    ((∃ st1, processTest polyfillSample helpersSample yamlParserSample sampleLists sampleCfg
        initState tcPassListed = .ok st1 ∧
        st1.executed = initState.executed ++
          [(tcPassListed.relPath, envForTest polyfillSample helpersSample none)]) ∧
     (∃ st2, processTest polyfillSample helpersSample yamlParserSample sampleLists sampleCfg
        stAfterMutation tcPassListed = .ok st2 ∧
        st2.executed = stAfterMutation.executed ++
          [(tcPassListed.relPath, envForTest polyfillSample helpersSample none)]) ∧
     envForTest polyfillSample helpersSample none =
       (effectiveIncludes none).foldl (fun env i => helpersSample i env) (polyfillSample [])) :=
  ⟨rfl, rfl, rfl, sandbox_isolation polyfillSample helpersSample yamlParserSample sampleLists
    sampleCfg initState stAfterMutation tcPassListed none rfl rfl rfl⟩

/-- C6 witness: the ceiling theorem instantiated with ceiling 1, a state
holding one recorded failure, and two remaining tests, both of which are
skipped. -/
theorem failure_ceiling_skips_witness :
    0 < 1 ∧ cfgCeiling.maxFailures = some 1 ∧ 1 ≤ stOneFailure.failures.length ∧
    runLoop polyfillSample helpersSample yamlParserSample sampleLists cfgCeiling
        [tcPassListed, tcThrowListed] stOneFailure =
      .ok { stOneFailure with
        skippedCount := stOneFailure.skippedCount + [tcPassListed, tcThrowListed].length } :=
  ⟨by decide, rfl, by decide,
    failure_ceiling_skips polyfillSample helpersSample yamlParserSample sampleLists cfgCeiling
      1 (by decide) rfl stOneFailure (by decide) [tcPassListed, tcThrowListed]⟩

/-- C7 witness: the counter identity on a concrete completed run of one
listed, throwing test. -/
theorem outcome_counters_witness :
    runLoop polyfillSample helpersSample yamlParserSample sampleLists sampleCfg
        [tcThrowListed] initState = .ok stExpectedFail ∧
    (outcomeTotal stExpectedFail = [tcThrowListed].length ∧
      (∀ s1 t s2, processTest polyfillSample helpersSample yamlParserSample sampleLists sampleCfg
          s1 t = .ok s2 → outcomeTotal s2 = outcomeTotal s1 + 1)) :=
  ⟨rfl, outcome_counters polyfillSample helpersSample yamlParserSample sampleLists sampleCfg
    [tcThrowListed] stExpectedFail rfl⟩

/-- C8 witness: the success characterisation on the same concrete run (one
expected failure, so the run succeeds). -/
theorem run_success_iff_witness :
    runLoop polyfillSample helpersSample yamlParserSample sampleLists sampleCfg
        [tcThrowListed] initState = .ok stExpectedFail ∧
    (runTest262 polyfillSample helpersSample yamlParserSample sampleLists sampleCfg
        [tcThrowListed] = .ok (runSuccess stExpectedFail) ∧
      (runSuccess stExpectedFail = true ↔
        stExpectedFail.failures.length = 0 ∧ stExpectedFail.unexpectedPassCount = 0)) :=
  ⟨rfl, run_success_iff polyfillSample helpersSample yamlParserSample sampleLists sampleCfg
    [tcThrowListed] stExpectedFail rfl⟩

/-- C9 witness: the timeout theorem instantiated at an unlisted test whose
body always overruns the budget. -/
theorem timeout_outcome_witness :
    overFailureLimit sampleCfg.maxFailures initState.failures.length = false ∧
    yamlParserSample ((execFrontmatter tcLoopForever.code).getD "") = .ok none ∧
    (∀ env, (tcLoopForever.body env).2 = .overran) ∧
    ((getRelevantExpectedFailureLists sampleLists tcLoopForever.relPath = none →
      processTest polyfillSample helpersSample yamlParserSample sampleLists sampleCfg
          initState tcLoopForever = .ok
        { initState with
          executed := initState.executed ++
            [(tcLoopForever.relPath, envForTest polyfillSample helpersSample none)],
          failures := initState.failures ++
            [(tcLoopForever.relPath, timeoutMessage sampleCfg.timeoutMsecs)] }) ∧
    (∀ ls, getRelevantExpectedFailureLists sampleLists tcLoopForever.relPath = some ls →
      processTest polyfillSample helpersSample yamlParserSample sampleLists sampleCfg
          initState tcLoopForever = .ok
        { initState with
          executed := initState.executed ++
            [(tcLoopForever.relPath, envForTest polyfillSample helpersSample none)],
          expectedFailCount := initState.expectedFailCount + 1 }) ∧
    (∀ rest st2, processTest polyfillSample helpersSample yamlParserSample sampleLists sampleCfg
        initState tcLoopForever = .ok st2 →
      runLoop polyfillSample helpersSample yamlParserSample sampleLists sampleCfg
          (tcLoopForever :: rest) initState =
        runLoop polyfillSample helpersSample yamlParserSample sampleLists sampleCfg rest st2)) :=
  ⟨rfl, rfl, fun _ => rfl,
    timeout_outcome polyfillSample helpersSample yamlParserSample sampleLists sampleCfg
      initState tcLoopForever none rfl rfl (fun _ => rfl)⟩

/-- C10 witness: two listed, throwing tests run under a ceiling of one; both
are executed as expected failures and neither is skipped. -/
theorem expected_failures_never_short_circuit_witness :
    (∀ t ∈ [tcThrowListed, tcThrowListedBoth],
      ∃ fm, yamlParserSample ((execFrontmatter t.code).getD "") = .ok fm) ∧
    (∀ t ∈ [tcThrowListed, tcThrowListedBoth], ∀ env, (t.body env).2 ≠ .completed) ∧
    (∀ t ∈ [tcThrowListed, tcThrowListedBoth],
      getRelevantExpectedFailureLists sampleLists t.relPath ≠ none) ∧
    ((∀ st t st2, processTest polyfillSample helpersSample yamlParserSample sampleLists cfgCeiling
        st t = .ok st2 →
      st2.failures = st.failures ∨
        (getRelevantExpectedFailureLists sampleLists t.relPath = none ∧
          ∃ e, st2.failures = st.failures ++ [(t.relPath, e)])) ∧
    (∃ st, runLoop polyfillSample helpersSample yamlParserSample sampleLists cfgCeiling
        [tcThrowListed, tcThrowListedBoth] initState = .ok st ∧
      st.skippedCount = 0 ∧ st.failures = [] ∧
      st.expectedFailCount = [tcThrowListed, tcThrowListedBoth].length ∧
      st.executed.length = [tcThrowListed, tcThrowListedBoth].length)) := by
  have h1 : ∀ t ∈ [tcThrowListed, tcThrowListedBoth],
      ∃ fm, yamlParserSample ((execFrontmatter t.code).getD "") = .ok fm := by
    intro t ht
    fin_cases ht <;> exact ⟨none, rfl⟩
  have h2 : ∀ t ∈ [tcThrowListed, tcThrowListedBoth], ∀ env, (t.body env).2 ≠ .completed := by
    intro t ht env
    fin_cases ht <;> exact fun h => nomatch h
  have h3 : ∀ t ∈ [tcThrowListed, tcThrowListedBoth],
      getRelevantExpectedFailureLists sampleLists t.relPath ≠ none := by
    intro t ht
    fin_cases ht <;> decide
  exact ⟨h1, h2, h3, expected_failures_never_short_circuit polyfillSample helpersSample
    yamlParserSample sampleLists cfgCeiling [tcThrowListed, tcThrowListedBoth] h1 h2 h3⟩

/-- C4 witness: the header-handling theorem instantiated at the test with the
malformed header and the throwing parser. -/
theorem metadata_header_handling_witness :
    overFailureLimit sampleCfg.maxFailures initState.failures.length = false ∧
    ((execFrontmatter tcBadHeader.code = none → yamlParserSample "" = .ok none →
      ∃ st2, processTest polyfillSample helpersSample yamlParserSample sampleLists sampleCfg
          initState tcBadHeader = .ok st2 ∧
        st2.executed = initState.executed ++
          [(tcBadHeader.relPath, envForTest polyfillSample helpersSample none)] ∧
        destructureFrontmatter none = ([], []) ∧
        effectiveIncludes none = ["assert.js", "sta.js"]) ∧
    (∀ r e, execFrontmatter tcBadHeader.code = some r → yamlParserSample r = .error e →
      processTest polyfillSample helpersSample yamlParserSample sampleLists sampleCfg
          initState tcBadHeader = .error e)) :=
  ⟨rfl, metadata_header_handling polyfillSample helpersSample yamlParserSample sampleLists
    sampleCfg initState tcBadHeader rfl⟩
